import Mathlib

/-!
Verification of the two analysis scripts of the L4S video-conferencing
experiment repository: the CSV metrics plotter (plot-csv.py) and the iperf3
stream plotter (plot_iperf3.py).  Both scripts are linear batch pipelines;
we embed their data transformations shallowly: pandas/numpy numeric values
become rationals (`ℚ`), missing values (NaN) become `none : Option ℚ`,
Python strings become `List Char`, and the `sys.exit(1)` error paths become
an explicit `Outcome` type.  Each definition mirrors one function or loop of
the source scripts.
-/

/-! ## iperf3 pipeline (plot_iperf3.py) -/

/-- One per-stream measurement object inside an interval of the iperf3 JSON
report: the `socket` id, the optional `rtt` field (absent keys are modelled
as `none`, matching `stream.get` with a default), and `bits_per_second`. -/
structure StreamObj where
  socket : ℕ
  rtt : Option ℚ
  bits_per_second : ℚ
deriving DecidableEq

/-- One sampling interval of the iperf3 JSON report: the window start time
(`interval.sum.start` in the JSON) and its list of per-stream objects. -/
structure IperfInterval where
  start : ℚ
  streams : List StreamObj
deriving DecidableEq

/-- The per-stream series dictionary value built by the collection loop:
parallel lists of sample times, RTTs and throughputs. -/
structure SeriesData where
  time : List ℚ
  rtt : List ℚ
  bps : List ℚ
deriving DecidableEq

/-- `np.mean` on a list of rationals: sum divided by length. -/
def mean (l : List ℚ) : ℚ := l.sum / l.length

/-- One iteration of the collection loop body: append a sample for socket
`sid` to the (insertion-ordered) dictionary `sd`, creating the entry with
empty lists first when the socket is new, exactly as the Python loop does. -/
def addSample (sd : List (ℕ × SeriesData)) (sid : ℕ) (t r b : ℚ) :
    List (ℕ × SeriesData) :=
  match sd with
  | [] => [(sid, ⟨[t], [r], [b]⟩)]
  | (k, s) :: rest =>
    if k = sid then
      (k, ⟨s.time ++ [t], s.rtt ++ [r], s.bps ++ [b]⟩) :: rest
    else
      (k, s) :: addSample rest sid t r b

/-- The collection loop of plot_iperf3.py: for every interval and every
stream object in it, append `interval.sum.start` as the time,
`stream.get(rtt, 0) / 10^3` as the RTT and `bits_per_second / 10^6` as the
throughput to the series of that stream's socket. -/
def collectStreams (intervals : List IperfInterval) : List (ℕ × SeriesData) :=
  intervals.foldl
    (fun sd iv =>
      iv.streams.foldl
        (fun sd2 st =>
          addSample sd2 st.socket iv.start (st.rtt.getD 0 / 10 ^ 3)
            (st.bits_per_second / 10 ^ 6))
        sd)
    []

/-- Dictionary lookup in the insertion-ordered association list that models
`stream_data`. -/
def lookupSeries (sd : List (ℕ × SeriesData)) (sid : ℕ) : Option SeriesData :=
  match sd with
  | [] => none
  | (k, s) :: rest => if k = sid then some s else lookupSeries rest sid

/-- The recursion underlying `compute_averages` for a chunk size of `c + 1`:
slice off the first `c + 1` elements of each list, append the chunk means
(RTT mean shifted by the fixed `-45` calibration offset), and recurse on the
rest; the loop is driven by the `time` list, and the `if chunk_time` guard
of the source skips a bucket only for an empty time chunk. -/
def avgChunks (c : ℕ) (time rtt bps : List ℚ) : SeriesData :=
  match time with
  | [] => ⟨[], [], []⟩
  | t :: ts =>
    let chunk_time := (t :: ts).take (c + 1)
    let chunk_rtt := rtt.take (c + 1)
    let chunk_bps := bps.take (c + 1)
    let rest := avgChunks c ((t :: ts).drop (c + 1)) (rtt.drop (c + 1))
      (bps.drop (c + 1))
    if chunk_time.isEmpty then rest
    else
      ⟨mean chunk_time :: rest.time,
       (mean chunk_rtt - 45) :: rest.rtt,
       mean chunk_bps :: rest.bps⟩
termination_by time.length
decreasing_by
  simp [List.length_drop]
  omega

/-- `compute_averages` of plot_iperf3.py.  A chunk size of `0` makes the
source's `range(0, len, chunk_size)` raise, which we model as `none`; for a
positive chunk size the buckets are computed by `avgChunks`. -/
def compute_averages (data : SeriesData) (chunk_size : ℕ := 10) :
    Option SeriesData :=
  match chunk_size with
  | 0 => none
  | c + 1 => some (avgChunks c data.time data.rtt data.bps)

/-- Specification-side characterisation of the grouping loop: the samples
belonging to socket `sid`, flattened in interval order, each carrying the
enclosing interval's start time and the converted RTT and throughput. -/
def socketSamples (intervals : List IperfInterval) (sid : ℕ) :
    List (ℚ × ℚ × ℚ) :=
  intervals.flatMap
    (fun iv =>
      (iv.streams.filter (fun st => st.socket == sid)).map
        (fun st => (iv.start, st.rtt.getD 0 / 10 ^ 3,
          st.bits_per_second / 10 ^ 6)))

/-- All samples produced by the collection loop, flattened in the order the
nested loops visit them, tagged with their socket id. -/
def allSamples (intervals : List IperfInterval) : List (ℕ × ℚ × ℚ × ℚ) :=
  intervals.flatMap
    (fun iv =>
      iv.streams.map
        (fun st => (st.socket, iv.start, st.rtt.getD 0 / 10 ^ 3,
          st.bits_per_second / 10 ^ 6)))

/-! ## CSV pipeline (plot-csv.py)

A cell of a numeric column after `pd.to_numeric(errors=coerce)` is a valid
float or NaN; we model it as `Option ℚ` with `none` for missing/NaN.  The
non-numeric `sender` column holds `Option (List Char)` cells.  Strings are
`List Char` throughout. -/

/-- The eight-column DataFrame of plot-csv.py, one list per column, with
`none` for a missing (NaN) cell. -/
structure DataFrame where
  ts : List (Option ℚ)
  sender : List (Option (List Char))
  normalized_tput : List (Option ℚ)
  rtt : List (Option ℚ)
  retr_current : List (Option ℚ)
  retr_total : List (Option ℚ)
  cwnd : List (Option ℚ)
  ssthresh : List (Option ℚ)
deriving DecidableEq

/-- Forward fill with `last` as the value carried in from above: a missing
cell becomes the carried value, a valid cell is kept and becomes the new
carried value. -/
def ffillAux (last : Option α) : List (Option α) → List (Option α)
  | [] => []
  | none :: xs => last :: ffillAux last xs
  | some a :: xs => some a :: ffillAux (some a) xs

/-- `fillna(method=ffill)` on one column: forward fill starting with no
carried value, so leading missing cells stay missing. -/
def ffill (l : List (Option α)) : List (Option α) := ffillAux none l

/-- The last valid value of a column prefix, seeded with `last`: the fold
that `ffillAux` threads through the column. -/
def lastValidFrom (last : Option α) (l : List (Option α)) : Option α :=
  l.foldl (fun acc x => match x with | some a => some a | none => acc) last

/-- `process_data` of plot-csv.py: `pd.to_numeric(errors=coerce)` on the
seven numeric columns (the identity in this model, where numeric cells are
already `Option ℚ`), then `df.fillna(method=ffill)` on the whole frame —
including the non-numeric `sender` column — then division of
`normalized_tput` by 1000 (Kbps to Mbps). -/
def process_data (df : DataFrame) : DataFrame :=
  { ts := ffill df.ts
    sender := ffill df.sender
    normalized_tput :=
      (ffill df.normalized_tput).map (Option.map (fun v => v / 1000))
    rtt := ffill df.rtt
    retr_current := ffill df.retr_current
    retr_total := ffill df.retr_total
    cwnd := ffill df.cwnd
    ssthresh := ffill df.ssthresh }

/-- The output filename computed at the end of `plot_metrics`: the title
with each space replaced by an underscore (Python `str.replace` with a
one-character pattern), or the default `sender-ss` for an empty (falsy)
title, suffixed with `_plots.png`. -/
def output_image (plot_title : List Char) : List Char :=
  let safe_title :=
    if plot_title = [] then "sender-ss".data
    else plot_title.map (fun ch => if ch = ' ' then '_' else ch)
  safe_title ++ "_plots.png".data

/-- A call to `sys.exit` after printing: the exit code and the printed
message. -/
structure ExitCall where
  code : ℕ
  message : List Char
deriving DecidableEq

/-- The result of running the CSV script: either a graceful `sys.exit`
(code and printed message) or a successful run carrying the processed frame
and the saved filename. -/
inductive Outcome where
  | exits (e : ExitCall)
  | success (df : DataFrame) (saved : List Char)
deriving DecidableEq

/-- `parse_arguments` of plot-csv.py: join the title words with spaces,
then check `os.path.isfile` (abstracted as the predicate `isFile`); a
missing file prints an error naming the path and exits with code 1. -/
def parse_arguments (isFile : List Char → Bool) (csv_path : List Char)
    (title : List (List Char)) : Except ExitCall (List Char × List Char) :=
  let plot_title := List.intercalate [' '] title
  if isFile csv_path then Except.ok (csv_path, plot_title)
  else
    Except.error
      ⟨1, "Error: File \x27".data ++ csv_path ++
        "\x27 does not exist.".data⟩

/-- `load_data` of plot-csv.py: `pd.read_csv` (abstracted as `read_csv`,
whose `Except.error` carries a raised parse exception) wrapped in
try/except; a parse failure prints an error and exits with code 1. -/
def load_data (read_csv : List Char → Except (List Char) DataFrame)
    (csv_path : List Char) : Except ExitCall DataFrame :=
  match read_csv csv_path with
  | Except.ok df => Except.ok df
  | Except.error e =>
    Except.error ⟨1, "Error reading CSV file: ".data ++ e⟩

/-- The `main` function of plot-csv.py (renamed, since Lean reserves `main`): parse arguments, load, process, then plot; the
plotting stage contributes the saved filename via `output_image`. -/
def csv_main (isFile : List Char → Bool)
    (read_csv : List Char → Except (List Char) DataFrame)
    (csv_path : List Char) (title : List (List Char)) : Outcome :=
  match parse_arguments isFile csv_path title with
  | Except.error ec => Outcome.exits ec
  | Except.ok (path, plot_title) =>
    match load_data read_csv path with
    | Except.error ec => Outcome.exits ec
    | Except.ok df => Outcome.success (process_data df) (output_image plot_title)

/-! ## Auxiliary notions used to state and prove the theorems -/

/-- `addSample` taking its sample as one tuple, for folding over flattened
sample lists. -/
def addSampleQ (sd : List (ℕ × SeriesData)) (q : ℕ × ℚ × ℚ × ℚ) :
    List (ℕ × SeriesData) :=
  addSample sd q.1 q.2.1 q.2.2.1 q.2.2.2

/-- The samples of a flattened tagged sample list that belong to socket
`sid`, with the tags dropped. -/
def samplesFor (sid : ℕ) (qs : List (ℕ × ℚ × ℚ × ℚ)) : List (ℚ × ℚ × ℚ) :=
  (qs.filter (fun q => q.1 == sid)).map (fun q => q.2)

/-- Append a list of samples to a series, componentwise. -/
def extendSeries (s : SeriesData) (tail : List (ℚ × ℚ × ℚ)) : SeriesData :=
  ⟨s.time ++ tail.map (fun q => q.1),
   s.rtt ++ tail.map (fun q => q.2.1),
   s.bps ++ tail.map (fun q => q.2.2)⟩

/-! ## Theorems -/

theorem ffillAux_length {α : Type} (last : Option α) (l : List (Option α)) :
    (ffillAux last l).length = l.length := by
  induction l generalizing last with
  | nil => rfl
  | cons x xs ih => cases x <;> simp [ffillAux, ih]

theorem lastValidFrom_nil {α : Type} (last : Option α) :
    lastValidFrom last [] = last := rfl

theorem lastValidFrom_append {α : Type} (last : Option α)
    (l1 l2 : List (Option α)) :
    lastValidFrom last (l1 ++ l2) = lastValidFrom (lastValidFrom last l1) l2 := by
  simp [lastValidFrom, List.foldl_append]

theorem lastValidFrom_all_none {α : Type} (last : Option α)
    (l : List (Option α)) (h : ∀ x ∈ l, x = none) :
    lastValidFrom last l = last := by
  induction l with
  | nil => rfl
  | cons x xs ih =>
    have hx : x = none := h x (List.mem_cons_self x xs)
    subst hx
    simpa [lastValidFrom] using ih (fun y hy => h y (List.mem_cons_of_mem _ hy))

theorem lastValidFrom_snoc_some {α : Type} (last : Option α)
    (l : List (Option α)) (a : α) :
    lastValidFrom last (l ++ [some a]) = some a := by
  simp [lastValidFrom_append, lastValidFrom]

theorem lastValidFrom_snoc_none {α : Type} (last : Option α)
    (l : List (Option α)) :
    lastValidFrom last (l ++ [none]) = lastValidFrom last l := by
  simp [lastValidFrom_append, lastValidFrom]

theorem ffillAux_getD {α : Type} (l : List (Option α)) :
    ∀ (last : Option α) (i : ℕ), i < l.length →
      (ffillAux last l).getD i none = lastValidFrom last (l.take (i + 1)) := by
  induction l with
  | nil => intro last i hi; simp at hi
  | cons x xs ih =>
    intro last i hi
    cases x with
    | none =>
      cases i with
      | zero => simp [ffillAux, lastValidFrom]
      | succ j =>
        have hj : j < xs.length := by simpa using hi
        simpa [ffillAux, lastValidFrom] using ih last j hj
    | some a =>
      cases i with
      | zero => simp [ffillAux, lastValidFrom]
      | succ j =>
        have hj : j < xs.length := by simpa using hi
        simpa [ffillAux, lastValidFrom] using ih (some a) j hj

theorem ffill_getD {α : Type} (l : List (Option α)) (i : ℕ)
    (hi : i < l.length) :
    (ffill l).getD i none = lastValidFrom none (l.take (i + 1)) :=
  ffillAux_getD l none i hi

theorem take_succ_getD {α : Type} (l : List (Option α)) (i : ℕ)
    (hi : i < l.length) :
    l.take (i + 1) = l.take i ++ [l.getD i none] := by
  rw [List.take_succ, List.getElem?_eq_getElem hi,
    List.getD_eq_getElem?_getD, List.getElem?_eq_getElem hi]
  rfl

/-- A missing cell with a valid cell `j` strictly before it and only missing
cells in between is filled with the value of cell `j`. -/
theorem ffill_interior {α : Type} (l : List (Option α)) (i j : ℕ)
    (hji : j < i) (hi : i < l.length) (hmiss : l.getD i none = none)
    (hvalid : (l.getD j none).isSome)
    (hgap : ∀ k, j < k → k < i → l.getD k none = none) :
    (ffill l).getD i none = l.getD j none := by
  obtain ⟨v, hv⟩ := Option.isSome_iff_exists.mp hvalid
  have hj : j < l.length := hji.trans hi
  rw [ffill_getD l i hi, take_succ_getD l i hi, hmiss,
    lastValidFrom_snoc_none]
  have hsplit : l.take i = l.take (j + 1) ++ (l.drop (j + 1)).take (i - (j + 1)) := by
    rw [← List.take_add]
    congr 1
    omega
  have hmid : ∀ x ∈ (l.drop (j + 1)).take (i - (j + 1)), x = none := by
    intro x hx
    obtain ⟨n, hn, hxn⟩ := List.mem_iff_getElem.mp hx
    have hn2 : n < (l.drop (j + 1)).length := by
      have := hn
      simp only [List.length_take] at this
      omega
    rw [List.getElem_take, List.getElem_drop] at hxn
    have hlen : j + 1 + n < l.length := by
      simp only [List.length_take, List.length_drop] at hn
      omega
    have := hgap (j + 1 + n) (by omega)
      (by simp only [List.length_take, List.length_drop] at hn; omega)
    rw [List.getD_eq_getElem?_getD, List.getElem?_eq_getElem hlen] at this
    simp only [Option.getD_some] at this
    rw [← hxn, this]
  rw [hsplit, lastValidFrom_append,
    lastValidFrom_all_none _ _ hmid, take_succ_getD l j hj, hv,
    lastValidFrom_snoc_some]

/-- A missing cell with no valid cell before it stays missing after the
fill. -/
theorem ffill_leading {α : Type} (l : List (Option α)) (i : ℕ)
    (hi : i < l.length) (hmiss : l.getD i none = none)
    (hbefore : ∀ k, k < i → l.getD k none = none) :
    (ffill l).getD i none = none := by
  rw [ffill_getD l i hi, take_succ_getD l i hi, hmiss,
    lastValidFrom_snoc_none]
  apply lastValidFrom_all_none
  intro x hx
  obtain ⟨n, hn, hxn⟩ := List.mem_iff_getElem.mp hx
  have hn2 : n < i := by
    simp only [List.length_take] at hn
    omega
  have hnl : n < l.length := by omega
  have := hbefore n hn2
  rw [List.getD_eq_getElem?_getD, List.getElem?_eq_getElem hnl] at this
  simp only [Option.getD_some] at this
  rw [← hxn, List.getElem_take, this]

/-- A valid cell is left unchanged by the fill. -/
theorem ffill_some {α : Type} (l : List (Option α)) (i : ℕ) (v : α)
    (hv : l.getD i none = some v) :
    (ffill l).getD i none = some v := by
  have hi : i < l.length := by
    by_contra h
    rw [List.getD_eq_default _ _ (by omega)] at hv
    exact Option.noConfusion hv
  rw [ffill_getD l i hi, take_succ_getD l i hi, hv,
    lastValidFrom_snoc_some]

theorem getD_map_optionMap {α β : Type} (f : α → β) (l : List (Option α))
    (i : ℕ) :
    (l.map (Option.map f)).getD i none = Option.map f (l.getD i none) := by
  rw [List.getD_eq_getElem?_getD, List.getD_eq_getElem?_getD,
    List.getElem?_map]
  cases l[i]? with
  | none => rfl
  | some o => rfl

/-- C1: For the CSV pipeline, for every row sequence where a numeric column
(here the `rtt` column) has an interior missing value — a missing entry with
at least one valid value before it — the processed value of that entry
equals the nearest preceding non-missing value in reading order, and entries
in rows before the first valid value of that column remain missing after
processing. -/
theorem csv_forward_fill_law (df : DataFrame) (i : ℕ)
    (hi : i < df.rtt.length) (hmiss : df.rtt.getD i none = none) :
    (∀ j, j < i → (df.rtt.getD j none).isSome →
      (∀ k, j < k → k < i → df.rtt.getD k none = none) →
      (process_data df).rtt.getD i none = df.rtt.getD j none) ∧
    ((∀ k, k < i → df.rtt.getD k none = none) →
      (process_data df).rtt.getD i none = none) := by
  constructor
  · intro j hji hvalid hgap
    show (ffill df.rtt).getD i none = df.rtt.getD j none
    exact ffill_interior df.rtt i j hji hi hmiss hvalid hgap
  · intro hbefore
    show (ffill df.rtt).getD i none = none
    exact ffill_leading df.rtt i hi hmiss hbefore

theorem csv_forward_fill_law_witness :
    (process_data (DataFrame.mk [] [] [] [some 5, none] [] [] [] [])).rtt.getD
        1 none =
      (DataFrame.mk [] [] [] [some (5 : ℚ), none] [] [] [] []).rtt.getD 0
        none :=
  (csv_forward_fill_law (DataFrame.mk [] [] [] [some 5, none] [] [] [] []) 1
        (by decide) rfl).1
    0 (by decide) rfl (fun k hk1 hk2 => absurd hk2 (by omega))

/-- C4: For every non-missing raw throughput value, the processed throughput
equals the raw value divided by 1000 (Kbps to Mbps conversion is exact
linear scaling). -/
theorem csv_tput_conversion (df : DataFrame) (i : ℕ) (v : ℚ)
    (hv : df.normalized_tput.getD i none = some v) :
    (process_data df).normalized_tput.getD i none = some (v / 1000) := by
  show ((ffill df.normalized_tput).map (Option.map (fun v => v / 1000))).getD
      i none = some (v / 1000)
  rw [getD_map_optionMap, ffill_some df.normalized_tput i v hv]
  rfl

theorem csv_tput_conversion_witness :
    (process_data (DataFrame.mk [] [] [some 2] [] [] [] [] [])).normalized_tput.getD
        0 none = some ((2 : ℚ) / 1000) :=
  csv_tput_conversion (DataFrame.mk [] [] [some 2] [] [] [] [] []) 0 2 rfl

/-- C10 as stated is false: a frame whose `sender` column is the single
missing cell `[none]` contains a missing entry, yet `process_data` leaves
the column unchanged, because the missing cell has no preceding non-missing
value to be filled from. -/
theorem csv_sender_unchanged_cex :
    (DataFrame.mk [] [none] [] [] [] [] [] []).sender = [none] ∧
    (process_data (DataFrame.mk [] [none] [] [] [] [] [] [])).sender =
      [none] :=
  ⟨rfl, rfl⟩

/-- C10 (amended): `process_data`'s forward-fill is applied to the entire
DataFrame, not only the seven numeric columns — a missing value in the
non-numeric `sender` column that has at least one non-missing entry before
it is also replaced by the nearest preceding non-missing sender value, so
the sender column is not left unchanged by processing when it contains such
a missing entry. -/
theorem csv_sender_ffill (df : DataFrame) (i j : ℕ) (hji : j < i)
    (hi : i < df.sender.length) (hmiss : df.sender.getD i none = none)
    (hvalid : (df.sender.getD j none).isSome)
    (hgap : ∀ k, j < k → k < i → df.sender.getD k none = none) :
    (process_data df).sender.getD i none = df.sender.getD j none ∧
    (process_data df).sender ≠ df.sender := by
  have hfill : (process_data df).sender.getD i none = df.sender.getD j none :=
    ffill_interior df.sender i j hji hi hmiss hvalid hgap
  refine ⟨hfill, fun heq => ?_⟩
  rw [heq, hmiss] at hfill
  rw [← hfill] at hvalid
  simp at hvalid

theorem csv_sender_ffill_witness :
    (process_data (DataFrame.mk [] [some "a".data, none] [] [] [] [] []
          [])).sender.getD 1 none =
      (DataFrame.mk [] [some "a".data, none] [] [] [] [] [] []).sender.getD 0
        none ∧
    (process_data (DataFrame.mk [] [some "a".data, none] [] [] [] [] []
          [])).sender ≠
      (DataFrame.mk [] [some "a".data, none] [] [] [] [] [] []).sender :=
  csv_sender_ffill (DataFrame.mk [] [some "a".data, none] [] [] [] [] [] [])
    1 0 (by decide) (by decide) rfl (by decide)
    (fun k hk1 hk2 => absurd hk2 (by omega))

/-- C6: The output filename of the CSV plotter is a deterministic function
of the title: every space in the title is replaced by an underscore and the
suffix `_plots.png` is appended (so title `Test Run 1` yields
`Test_Run_1_plots.png`); if the title is empty the filename is
`sender-ss_plots.png`.  The last conjunct checks that no space survives in
any output filename. -/
theorem csv_output_filename :
    output_image "Test Run 1".data = "Test_Run_1_plots.png".data ∧
    output_image [] = "sender-ss_plots.png".data ∧
    (∀ t : List Char, t ≠ [] →
      output_image t =
        t.map (fun ch => if ch = ' ' then '_' else ch) ++
          "_plots.png".data) ∧
    (∀ t : List Char, ' ' ∉ output_image t) := by
  refine ⟨by decide, by decide, fun t ht => by simp [output_image, ht], ?_⟩
  intro t hmem
  simp only [output_image] at hmem
  by_cases ht : t = []
  · rw [if_pos ht] at hmem
    exact absurd hmem (by decide)
  · rw [if_neg ht] at hmem
    rcases List.mem_append.mp hmem with h | h
    · rcases List.mem_map.mp h with ⟨ch, hch_mem, hch⟩
      by_cases hc : ch = ' '
      · rw [if_pos hc] at hch
        exact absurd hch (by decide)
      · rw [if_neg hc] at hch
        exact hc hch
    · exact absurd h (by decide)

theorem csv_output_filename_witness :
    "X Y".data ≠ [] ∧
    output_image "X Y".data =
      ("X Y".data).map (fun ch => if ch = ' ' then '_' else ch) ++
        "_plots.png".data :=
  ⟨by decide, csv_output_filename.2.2.1 "X Y".data (by decide)⟩

/-- C7: For every CSV path argument that the `isFile` predicate rejects,
the CSV script exits with exit code 1 and prints an error message that
contains the given path; the result does not depend on the reader
`read_csv`, which is never invoked, so the file is not loaded. -/
theorem csv_missing_file (isFile : List Char → Bool)
    (read_csv : List Char → Except (List Char) DataFrame)
    (csv_path : List Char) (title : List (List Char))
    (h : isFile csv_path = false) :
    csv_main isFile read_csv csv_path title =
      Outcome.exits
        ⟨1, "Error: File \x27".data ++ csv_path ++
          "\x27 does not exist.".data⟩ ∧
    ∃ pre post,
      "Error: File \x27".data ++ csv_path ++ "\x27 does not exist.".data =
        pre ++ csv_path ++ post := by
  refine ⟨?_, "Error: File \x27".data, "\x27 does not exist.".data, rfl⟩
  simp [csv_main, parse_arguments, h]

theorem csv_missing_file_witness :
    (fun _ : List Char => false) "x".data = false ∧
    (csv_main (fun _ => false) (fun _ => Except.error []) "x".data [] =
      Outcome.exits
        ⟨1, "Error: File \x27".data ++ "x".data ++
          "\x27 does not exist.".data⟩ ∧
    ∃ pre post,
      "Error: File \x27".data ++ "x".data ++ "\x27 does not exist.".data =
        pre ++ "x".data ++ post) :=
  ⟨rfl, csv_missing_file (fun _ => false) (fun _ => Except.error []) "x".data
    [] rfl⟩

/-- C8: For every existing input file whose CSV parsing raises an error,
the CSV script catches the error and exits gracefully with exit code 1
after printing an error message, rather than propagating the exception
(modelled as the `Except.error` payload of `read_csv`). -/
theorem csv_parse_failure (isFile : List Char → Bool)
    (read_csv : List Char → Except (List Char) DataFrame)
    (csv_path : List Char) (title : List (List Char)) (e : List Char)
    (hfile : isFile csv_path = true)
    (herr : read_csv csv_path = Except.error e) :
    csv_main isFile read_csv csv_path title =
      Outcome.exits ⟨1, "Error reading CSV file: ".data ++ e⟩ := by
  simp [csv_main, parse_arguments, load_data, hfile, herr]

theorem csv_parse_failure_witness :
    (fun _ : List Char => true) "f.csv".data = true ∧
    (fun _ : List Char => (Except.error "bad".data :
        Except (List Char) DataFrame)) "f.csv".data =
      Except.error "bad".data ∧
    csv_main (fun _ => true) (fun _ => Except.error "bad".data) "f.csv".data
        [] =
      Outcome.exits ⟨1, "Error reading CSV file: ".data ++ "bad".data⟩ :=
  ⟨rfl, rfl, csv_parse_failure (fun _ => true)
    (fun _ => Except.error "bad".data) "f.csv".data [] "bad".data rfl rfl⟩

theorem chunkCount_cons (c n : ℕ) :
    (n + 1 + c) / (c + 1) = (n - c + c) / (c + 1) + 1 := by
  rcases le_or_lt c n with h | h
  · rw [Nat.sub_add_cancel h]
    have h2 : n + 1 + c = n + (c + 1) := by ring
    rw [h2, Nat.add_div_right _ (Nat.succ_pos c)]
  · have h1 : n - c = 0 := Nat.sub_eq_zero_of_le h.le
    have h2 : n + 1 + c = n + (c + 1) := by ring
    rw [h1, Nat.zero_add, h2, Nat.add_div_right _ (Nat.succ_pos c),
      Nat.div_eq_of_lt (by omega), Nat.div_eq_of_lt (by omega)]

theorem drop_chunk_shift (l : List ℚ) (c k : ℕ) :
    (l.drop (c + 1)).drop (k * (c + 1)) = l.drop ((k + 1) * (c + 1)) := by
  rw [List.drop_drop]
  congr 1
  ring

/-- Closed form of `avgChunks`: for chunk size `c + 1` the loop visits the
chunk start indices `0, c + 1, 2 * (c + 1), …` below the length of the time
list, and each visited index contributes one bucket of slice means. -/
theorem avgChunks_eq (c : ℕ) (time rtt bps : List ℚ) :
    avgChunks c time rtt bps =
      ⟨(List.range ((time.length + c) / (c + 1))).map
          (fun k => mean ((time.drop (k * (c + 1))).take (c + 1))),
       (List.range ((time.length + c) / (c + 1))).map
          (fun k => mean ((rtt.drop (k * (c + 1))).take (c + 1)) - 45),
       (List.range ((time.length + c) / (c + 1))).map
          (fun k => mean ((bps.drop (k * (c + 1))).take (c + 1)))⟩ := by
  induction time, rtt, bps using avgChunks.induct c with
  | case1 rtt bps =>
    rw [avgChunks]
    simp [Nat.div_eq_of_lt (Nat.lt_succ_self c)]
  | case2 rtt bps t ts chunk_time h ih => simp [chunk_time] at h
  | case3 rtt bps t ts chunk_time h ih =>
    rw [avgChunks, if_neg h]
    have hK : ((t :: ts).length + c) / (c + 1) =
        (((t :: ts).drop (c + 1)).length + c) / (c + 1) + 1 := by
      simp only [List.length_cons, List.length_drop]
      have he : ts.length + 1 - (c + 1) = ts.length - c := by omega
      rw [he, chunkCount_cons]
    rw [hK, List.range_succ_eq_map, ih]
    simp only [SeriesData.mk.injEq]
    refine ⟨?_, ?_, ?_⟩
    · rw [List.map_cons, List.map_map]
      congr 1
      · simp
      · apply List.map_congr_left
        intro k hk
        have he : (k + 1) * (c + 1) = c + k * (c + 1) + 1 := by ring
        simp only [Function.comp_apply, Nat.succ_eq_add_one, he,
          List.drop_succ_cons, List.drop_drop]
    · rw [List.map_cons, List.map_map]
      congr 1
      · simp
      · apply List.map_congr_left
        intro k hk
        have he : (k + 1) * (c + 1) = c + 1 + k * (c + 1) := by ring
        simp only [Function.comp_apply, Nat.succ_eq_add_one, he,
          List.drop_drop]
    · rw [List.map_cons, List.map_map]
      congr 1
      · simp
      · apply List.map_congr_left
        intro k hk
        have he : (k + 1) * (c + 1) = c + 1 + k * (c + 1) := by ring
        simp only [Function.comp_apply, Nat.succ_eq_add_one, he,
          List.drop_drop]

/-- C2: For the iperf3 pipeline, chunk aggregation with `chunk_size = 10`
applied to a stream with exactly 25 samples produces exactly 3 buckets of
sizes 10, 10 and 5 (the non-overlapping contiguous slices
`[0:10]`, `[10:20]`, `[20:25]` in order), where each bucket's time and bps
equal the arithmetic mean of its members' time and bps, and each bucket's
rtt equals the arithmetic mean of its members' rtt minus 45. -/
theorem iperf_chunk_aggregation_25 (time rtt bps : List ℚ)
    (ht : time.length = 25) (hr : rtt.length = 25) (hb : bps.length = 25) :
    compute_averages ⟨time, rtt, bps⟩ 10 =
      some ⟨[mean (time.take 10), mean ((time.drop 10).take 10),
             mean (time.drop 20)],
            [mean (rtt.take 10) - 45, mean ((rtt.drop 10).take 10) - 45,
             mean (rtt.drop 20) - 45],
            [mean (bps.take 10), mean ((bps.drop 10).take 10),
             mean (bps.drop 20)]⟩ ∧
    (time.take 10).length = 10 ∧ ((time.drop 10).take 10).length = 10 ∧
    (time.drop 20).length = 5 := by
  refine ⟨?_, ?_, ?_, ?_⟩
  · show some (avgChunks 9 time rtt bps) = _
    rw [avgChunks_eq]
    have h3 : (time.length + 9) / 10 = 3 := by rw [ht]
    have htt : (time.drop (2 * 10)).take 10 = time.drop 20 :=
      List.take_of_length_le (by simp [ht])
    have hrr : (rtt.drop (2 * 10)).take 10 = rtt.drop 20 :=
      List.take_of_length_le (by simp [hr])
    have hbb : (bps.drop (2 * 10)).take 10 = bps.drop 20 :=
      List.take_of_length_le (by simp [hb])
    rw [h3]
    have hrange : List.range 3 = [0, 1, 2] := rfl
    rw [hrange]
    simp only [List.map_cons, List.map_nil, htt, hrr, hbb]
    norm_num
  · simp [List.length_take, ht]
  · simp [List.length_take, List.length_drop, ht]
  · simp [List.length_drop, ht]

theorem iperf_chunk_aggregation_25_witness :
    (List.replicate 25 (0 : ℚ)).length = 25 ∧
    (compute_averages
        ⟨List.replicate 25 (0 : ℚ), List.replicate 25 (0 : ℚ),
          List.replicate 25 (0 : ℚ)⟩ 10 =
      some
        ⟨[mean ((List.replicate 25 (0 : ℚ)).take 10),
          mean (((List.replicate 25 (0 : ℚ)).drop 10).take 10),
          mean ((List.replicate 25 (0 : ℚ)).drop 20)],
         [mean ((List.replicate 25 (0 : ℚ)).take 10) - 45,
          mean (((List.replicate 25 (0 : ℚ)).drop 10).take 10) - 45,
          mean ((List.replicate 25 (0 : ℚ)).drop 20) - 45],
         [mean ((List.replicate 25 (0 : ℚ)).take 10),
          mean (((List.replicate 25 (0 : ℚ)).drop 10).take 10),
          mean ((List.replicate 25 (0 : ℚ)).drop 20)]⟩ ∧
    ((List.replicate 25 (0 : ℚ)).take 10).length = 10 ∧
    (((List.replicate 25 (0 : ℚ)).drop 10).take 10).length = 10 ∧
    ((List.replicate 25 (0 : ℚ)).drop 20).length = 5) :=
  ⟨by simp, iperf_chunk_aggregation_25 _ _ _ (by simp) (by simp) (by simp)⟩

/-- C9 (implicit): for every input series of length `n` and every
`chunk_size ≥ 1`, `compute_averages` produces output lists of length
exactly `⌈n / chunk_size⌉`; an empty input series yields empty output
lists, and the mean is never computed over an empty chunk: every bucket
comes from nonempty slices, so the empty-chunk guard never skips and a NaN
bucket is unreachable. -/
theorem iperf_bucket_count (data : SeriesData) (cs : ℕ) (hcs : 1 ≤ cs)
    (hr : data.rtt.length = data.time.length)
    (hb : data.bps.length = data.time.length) :
    ∃ out, compute_averages data cs = some out ∧
      out.time.length = (data.time.length + cs - 1) / cs ∧
      out.rtt.length = (data.time.length + cs - 1) / cs ∧
      out.bps.length = (data.time.length + cs - 1) / cs ∧
      (data.time = [] → out = ⟨[], [], []⟩) ∧
      ∀ k, k < out.time.length →
        (data.time.drop (k * cs)).take cs ≠ [] ∧
        (data.rtt.drop (k * cs)).take cs ≠ [] ∧
        (data.bps.drop (k * cs)).take cs ≠ [] := by
  obtain ⟨c, rfl⟩ : ∃ c, cs = c + 1 := ⟨cs - 1, by omega⟩
  have harith : data.time.length + (c + 1) - 1 = data.time.length + c := by
    omega
  have hlen : (avgChunks c data.time data.rtt data.bps).time.length =
      (data.time.length + c) / (c + 1) := by
    rw [avgChunks_eq]
    simp
  refine ⟨avgChunks c data.time data.rtt data.bps, rfl, ?_, ?_, ?_, ?_, ?_⟩
  · rw [hlen, harith]
  · rw [avgChunks_eq, harith]
    simp
  · rw [avgChunks_eq, harith]
    simp
  · intro h
    rw [avgChunks_eq]
    simp [h, Nat.div_eq_of_lt (Nat.lt_succ_self c)]
  · intro k hk
    rw [hlen] at hk
    have hmul : (k + 1) * (c + 1) ≤ data.time.length + c :=
      (Nat.le_div_iff_mul_le (Nat.succ_pos c)).mp hk
    have hlt : k * (c + 1) < data.time.length := by
      rw [Nat.succ_mul] at hmul
      omega
    refine ⟨?_, ?_, ?_⟩
    · rw [Ne, List.take_eq_nil_iff]
      rintro (h | h)
      · omega
      · rw [List.drop_eq_nil_iff] at h
        omega
    · rw [Ne, List.take_eq_nil_iff]
      rintro (h | h)
      · omega
      · rw [List.drop_eq_nil_iff, hr] at h
        omega
    · rw [Ne, List.take_eq_nil_iff]
      rintro (h | h)
      · omega
      · rw [List.drop_eq_nil_iff, hb] at h
        omega

theorem iperf_bucket_count_witness :
    1 ≤ 1 ∧
    ∃ out, compute_averages ⟨[(1 : ℚ)], [(2 : ℚ)], [(3 : ℚ)]⟩ 1 = some out ∧
      out.time.length = (([(1 : ℚ)].length + 1 - 1) / 1) ∧
      out.rtt.length = (([(1 : ℚ)].length + 1 - 1) / 1) ∧
      out.bps.length = (([(1 : ℚ)].length + 1 - 1) / 1) ∧
      (([(1 : ℚ)] : List ℚ) = [] → out = ⟨[], [], []⟩) ∧
      ∀ k, k < out.time.length →
        (([(1 : ℚ)].drop (k * 1)).take 1 ≠ [] ∧
        ([(2 : ℚ)].drop (k * 1)).take 1 ≠ [] ∧
        ([(3 : ℚ)].drop (k * 1)).take 1 ≠ []) :=
  ⟨le_refl 1, iperf_bucket_count ⟨[1], [2], [3]⟩ 1 (le_refl 1) rfl rfl⟩

theorem allSamples_cons (iv : IperfInterval) (rest : List IperfInterval) :
    allSamples (iv :: rest) =
      iv.streams.map
        (fun st => (st.socket, iv.start, st.rtt.getD 0 / 10 ^ 3,
          st.bits_per_second / 10 ^ 6)) ++ allSamples rest := by
  simp [allSamples]

theorem socketSamples_cons (iv : IperfInterval) (rest : List IperfInterval)
    (sid : ℕ) :
    socketSamples (iv :: rest) sid =
      (iv.streams.filter (fun st => st.socket == sid)).map
        (fun st => (iv.start, st.rtt.getD 0 / 10 ^ 3,
          st.bits_per_second / 10 ^ 6)) ++ socketSamples rest sid := by
  simp [socketSamples]

theorem samplesFor_append (sid : ℕ) (l1 l2 : List (ℕ × ℚ × ℚ × ℚ)) :
    samplesFor sid (l1 ++ l2) = samplesFor sid l1 ++ samplesFor sid l2 := by
  simp [samplesFor, List.filter_append]

theorem samplesFor_interval (sid : ℕ) (iv : IperfInterval) :
    samplesFor sid
        (iv.streams.map
          (fun st => (st.socket, iv.start, st.rtt.getD 0 / 10 ^ 3,
            st.bits_per_second / 10 ^ 6))) =
      (iv.streams.filter (fun st => st.socket == sid)).map
        (fun st => (iv.start, st.rtt.getD 0 / 10 ^ 3,
          st.bits_per_second / 10 ^ 6)) := by
  rw [samplesFor, List.filter_map, List.map_map]
  rfl

theorem collectStreams_eq_foldl (intervals : List IperfInterval) :
    collectStreams intervals = (allSamples intervals).foldl addSampleQ [] := by
  suffices h : ∀ acc,
      intervals.foldl
        (fun sd iv =>
          iv.streams.foldl
            (fun sd2 st =>
              addSample sd2 st.socket iv.start (st.rtt.getD 0 / 10 ^ 3)
                (st.bits_per_second / 10 ^ 6))
            sd)
        acc = (allSamples intervals).foldl addSampleQ acc by
    exact h []
  induction intervals with
  | nil => intro acc; rfl
  | cons iv rest ih =>
    intro acc
    rw [List.foldl_cons, ih, allSamples_cons, List.foldl_append,
      List.foldl_map]
    rfl

theorem socketSamples_eq (intervals : List IperfInterval) (sid : ℕ) :
    socketSamples intervals sid = samplesFor sid (allSamples intervals) := by
  induction intervals with
  | nil => rfl
  | cons iv rest ih =>
    rw [socketSamples_cons, allSamples_cons, samplesFor_append,
      samplesFor_interval, ih]

theorem extendSeries_nil (s : SeriesData) : extendSeries s [] = s := by
  simp [extendSeries]

theorem extendSeries_cons (s : SeriesData) (x : ℚ × ℚ × ℚ)
    (l : List (ℚ × ℚ × ℚ)) :
    extendSeries s (x :: l) = extendSeries (extendSeries s [x]) l := by
  simp [extendSeries]

theorem lookupSeries_addSample (sd : List (ℕ × SeriesData)) (k : ℕ)
    (t r b : ℚ) (sid : ℕ) :
    lookupSeries (addSample sd k t r b) sid =
      if sid = k then
        some (extendSeries ((lookupSeries sd sid).getD ⟨[], [], []⟩)
          [(t, r, b)])
      else lookupSeries sd sid := by
  induction sd with
  | nil =>
    by_cases h : sid = k
    · subst h
      simp [addSample, lookupSeries, extendSeries]
    · have hks : ¬ k = sid := fun hh => h hh.symm
      simp [addSample, lookupSeries, h, hks]
  | cons p rest ih =>
    obtain ⟨k2, s2⟩ := p
    by_cases h1 : k2 = k
    · subst h1
      by_cases h2 : sid = k2
      · subst h2
        simp [addSample, lookupSeries, extendSeries]
      · have hks : ¬ k2 = sid := fun hh => h2 hh.symm
        simp [addSample, lookupSeries, h2, hks]
    · by_cases h2 : k2 = sid
      · subst h2
        have hsk : ¬ k2 = k := h1
        simp [addSample, lookupSeries, h1, hsk]
      · simp [addSample, lookupSeries, h1, h2, ih]

theorem lookupSeries_foldl (qs : List (ℕ × ℚ × ℚ × ℚ)) :
    ∀ (sd : List (ℕ × SeriesData)) (sid : ℕ),
      lookupSeries (qs.foldl addSampleQ sd) sid =
        match lookupSeries sd sid with
        | some s => some (extendSeries s (samplesFor sid qs))
        | none =>
          if samplesFor sid qs = [] then none
          else some (extendSeries ⟨[], [], []⟩ (samplesFor sid qs)) := by
  induction qs with
  | nil =>
    intro sd sid
    cases h : lookupSeries sd sid with
    | none => simp [samplesFor, h]
    | some s => simp [samplesFor, extendSeries_nil, h]
  | cons q qs ih =>
    intro sd sid
    obtain ⟨k, t, r, b⟩ := q
    rw [List.foldl_cons, ih]
    show (match lookupSeries (addSample sd k t r b) sid with
      | some s => some (extendSeries s (samplesFor sid qs))
      | none => _) = _
    rw [lookupSeries_addSample]
    by_cases h : sid = k
    · subst h
      have hfilter : samplesFor sid ((sid, t, r, b) :: qs) =
          (t, r, b) :: samplesFor sid qs := by
        simp [samplesFor, List.filter_cons]
      rw [hfilter]
      cases hl : lookupSeries sd sid with
      | none => simp [hl, extendSeries]
      | some s => simp [hl, extendSeries]
    · have hks : ¬ k = sid := fun hh => h hh.symm
      have hfilter : samplesFor sid ((k, t, r, b) :: qs) =
          samplesFor sid qs := by
        simp [samplesFor, List.filter_cons, hks]
      rw [hfilter, if_neg h]

theorem keys_addSample (sd : List (ℕ × SeriesData)) (k : ℕ) (t r b : ℚ) :
    (addSample sd k t r b).map Prod.fst =
      if k ∈ sd.map Prod.fst then sd.map Prod.fst
      else sd.map Prod.fst ++ [k] := by
  induction sd with
  | nil => simp [addSample]
  | cons p rest ih =>
    obtain ⟨k2, s2⟩ := p
    by_cases h1 : k2 = k
    · subst h1
      simp [addSample]
    · have hne : ¬ k = k2 := fun hh => h1 hh.symm
      by_cases h2 : k ∈ rest.map Prod.fst
      · simp [addSample, h1, ih, h2, hne]
      · simp [addSample, h1, ih, h2, hne]

theorem keys_foldl_nodup (qs : List (ℕ × ℚ × ℚ × ℚ)) :
    ∀ sd : List (ℕ × SeriesData), ((sd.map Prod.fst).Nodup) →
      (((qs.foldl addSampleQ sd).map Prod.fst).Nodup) := by
  induction qs with
  | nil => intro sd h; exact h
  | cons q qs ih =>
    intro sd h
    rw [List.foldl_cons]
    apply ih
    show ((addSample sd q.1 q.2.1 q.2.2.1 q.2.2.2).map Prod.fst).Nodup
    rw [keys_addSample]
    by_cases hm : q.1 ∈ sd.map Prod.fst
    · rw [if_pos hm]; exact h
    · rw [if_neg hm]
      simp [List.nodup_append, h, hm]

/-- Packaged characterisation of the collection loop: looking up a socket
in the built dictionary yields exactly its samples in interval order, or
nothing when the socket never occurs. -/
theorem lookup_collectStreams (intervals : List IperfInterval) (sid : ℕ) :
    lookupSeries (collectStreams intervals) sid =
      if socketSamples intervals sid = [] then none
      else
        some ⟨(socketSamples intervals sid).map (fun q => q.1),
              (socketSamples intervals sid).map (fun q => q.2.1),
              (socketSamples intervals sid).map (fun q => q.2.2)⟩ := by
  rw [collectStreams_eq_foldl, lookupSeries_foldl, socketSamples_eq]
  show (if samplesFor sid (allSamples intervals) = [] then none
    else some (extendSeries ⟨[], [], []⟩ (samplesFor sid (allSamples
      intervals)))) = _
  by_cases h : samplesFor sid (allSamples intervals) = []
  · rw [if_pos h, if_pos h]
  · rw [if_neg h, if_neg h]
    simp [extendSeries]

/-- C3: For every iperf3 input with an intervals array, all per-stream
samples carrying the same socket id across all intervals land in the one
series of that socket, appended in interval order, with each sample's time
taken from the enclosing interval's `sum.start` (that is what
`socketSamples` enumerates); distinct socket ids yield distinct dictionary
entries, witnessed by the `Nodup` key list. -/
theorem iperf_grouping (intervals : List IperfInterval) (sid : ℕ) :
    (lookupSeries (collectStreams intervals) sid =
      if socketSamples intervals sid = [] then none
      else
        some ⟨(socketSamples intervals sid).map (fun q => q.1),
              (socketSamples intervals sid).map (fun q => q.2.1),
              (socketSamples intervals sid).map (fun q => q.2.2)⟩) ∧
    ((collectStreams intervals).map Prod.fst).Nodup := by
  refine ⟨lookup_collectStreams intervals sid, ?_⟩
  rw [collectStreams_eq_foldl]
  exact keys_foldl_nodup _ [] (by simp)

theorem mem_socketSamples (intervals : List IperfInterval) (sid : ℕ)
    (q : ℚ × ℚ × ℚ) (h : q ∈ socketSamples intervals sid) :
    ∃ iv, iv ∈ intervals ∧ ∃ st, st ∈ iv.streams ∧ st.socket = sid ∧
      q = (iv.start, st.rtt.getD 0 / 10 ^ 3,
        st.bits_per_second / 10 ^ 6) := by
  unfold socketSamples at h
  obtain ⟨iv, hiv, hq2⟩ := List.mem_flatMap.mp h
  obtain ⟨st, hst, hqeq⟩ := List.mem_map.mp hq2
  have hstF := List.mem_filter.mp hst
  exact ⟨iv, hiv, st, hstF.1, by simpa using hstF.2, hqeq.symm⟩

/-- C5: For the iperf3 pipeline, at collection time every sample of a
collected series comes from a stream object with the series' socket id in
some interval of the input: its rtt is the raw `rtt` field (defaulting to 0
when absent) divided by 1000, its bps is the raw `bits_per_second` divided
by `10^6`, and its time is the enclosing interval's start. -/
theorem iperf_sample_conversion (intervals : List IperfInterval) (sid : ℕ)
    (s : SeriesData)
    (hs : lookupSeries (collectStreams intervals) sid = some s)
    (i : ℕ) (hit : i < s.time.length) :
    ∃ iv, iv ∈ intervals ∧ ∃ st, st ∈ iv.streams ∧ st.socket = sid ∧
      s.time.getD i 0 = iv.start ∧
      s.rtt.getD i 0 = st.rtt.getD 0 / 10 ^ 3 ∧
      s.bps.getD i 0 = st.bits_per_second / 10 ^ 6 := by
  rw [lookup_collectStreams] at hs
  by_cases hemp : socketSamples intervals sid = []
  · rw [if_pos hemp] at hs
    exact absurd hs (by simp)
  · rw [if_neg hemp] at hs
    have hsEq := Option.some.inj hs
    have hTime : s.time = (socketSamples intervals sid).map (fun q => q.1) := by
      rw [← hsEq]
    have hRtt : s.rtt = (socketSamples intervals sid).map (fun q => q.2.1) := by
      rw [← hsEq]
    have hBps : s.bps = (socketSamples intervals sid).map (fun q => q.2.2) := by
      rw [← hsEq]
    have hsl : i < (socketSamples intervals sid).length := by
      rw [hTime, List.length_map] at hit
      exact hit
    have hmem : (socketSamples intervals sid).get ⟨i, hsl⟩ ∈
        socketSamples intervals sid := List.get_mem _ _ _
    have ht : s.time.getD i 0 = ((socketSamples intervals sid).get ⟨i, hsl⟩).1 := by
      rw [hTime, List.getD_eq_getElem?_getD, List.getElem?_map,
        List.getElem?_eq_getElem hsl]
      rfl
    have hr2 : s.rtt.getD i 0 = ((socketSamples intervals sid).get ⟨i, hsl⟩).2.1 := by
      rw [hRtt, List.getD_eq_getElem?_getD, List.getElem?_map,
        List.getElem?_eq_getElem hsl]
      rfl
    have hb2 : s.bps.getD i 0 = ((socketSamples intervals sid).get ⟨i, hsl⟩).2.2 := by
      rw [hBps, List.getD_eq_getElem?_getD, List.getElem?_map,
        List.getElem?_eq_getElem hsl]
      rfl
    obtain ⟨iv, hiv, st, hstmem, hsock, hq⟩ :=
      mem_socketSamples intervals sid _ hmem
    refine ⟨iv, hiv, st, hstmem, hsock, ?_, ?_, ?_⟩
    · rw [ht, hq]
    · rw [hr2, hq]
    · rw [hb2, hq]

theorem iperf_sample_conversion_witness :
    lookupSeries
        (collectStreams
          [IperfInterval.mk 7 [StreamObj.mk 4 (some 100) 3000000]]) 4 =
      some ⟨[(7 : ℚ)], [(100 : ℚ) / 10 ^ 3], [(3000000 : ℚ) / 10 ^ 6]⟩ ∧
    ∃ iv, iv ∈ [IperfInterval.mk 7 [StreamObj.mk 4 (some 100) 3000000]] ∧
      ∃ st, st ∈ iv.streams ∧ st.socket = 4 ∧
        ([(7 : ℚ)] : List ℚ).getD 0 0 = iv.start ∧
        ([(100 : ℚ) / 10 ^ 3] : List ℚ).getD 0 0 = st.rtt.getD 0 / 10 ^ 3 ∧
        ([(3000000 : ℚ) / 10 ^ 6] : List ℚ).getD 0 0 =
          st.bits_per_second / 10 ^ 6 :=
  ⟨rfl,
    iperf_sample_conversion
      [IperfInterval.mk 7 [StreamObj.mk 4 (some 100) 3000000]] 4
      ⟨[(7 : ℚ)], [(100 : ℚ) / 10 ^ 3], [(3000000 : ℚ) / 10 ^ 6]⟩ rfl 0
      (by decide)⟩
